import Mathlib

/-!
Verification development for `create_xlsx_docs_from_json_file.py`, a tool that
flattens a JSON document into per-section schema tables and writes them to a
styled spreadsheet.

The embedding models:
* JSON values (`JVal`) as produced by `json.load`: `None`, booleans, integers,
  floats (carried as rationals; no float arithmetic occurs in the program),
  strings, lists, and objects (ordered key/value association lists, matching
  Python dict insertion order).
* `explore_json`, the recursive flattener (source lines 12-43).
* The pandas table-building steps of `create_xlsx_docs` (source lines 93-198):
  row construction, column append, column reorder, rename, fillna, and the
  `groupby(...).agg('first').reset_index()` deduplication.
* The openpyxl styling pass `config_xlsx` / `merge_equal_cells`
  (source lines 204-322) over an explicit sheet model.
-/

/-- JSON values as loaded by `json.load`. Floats are carried as rationals:
the program never performs arithmetic on them, it only branches on the
runtime type and copies the value into a cell. Objects are ordered
association lists, matching Python 3.7+ dict iteration order. -/
inductive JVal where
  | jnull : JVal
  | jbool : Bool → JVal
  | jint : Int → JVal
  | jfloat : ℚ → JVal
  | jstr : String → JVal
  | jlist : List JVal → JVal
  | jdict : List (String × JVal) → JVal

/-! Boolean equality on `JVal` (Python `==` restricted to same-type JSON
values; the program only ever compares values of equal runtime type).
The list and object layers are handled by the two companion functions. -/
mutual

/-- Value layer of the `JVal` boolean equality. -/
def jvalBeq : JVal → JVal → Bool
  | .jnull, .jnull => true
  | .jbool a, .jbool b => a == b
  | .jint a, .jint b => a == b
  | .jfloat a, .jfloat b => a == b
  | .jstr a, .jstr b => a == b
  | .jlist as, .jlist bs => jvalBeqL as bs
  | .jdict as, .jdict bs => jvalBeqD as bs
  | _, _ => false

def jvalBeqL : List JVal → List JVal → Bool
  | [], [] => true
  | a :: as, b :: bs => jvalBeq a b && jvalBeqL as bs
  | _, _ => false

def jvalBeqD : List (String × JVal) → List (String × JVal) → Bool
  | [], [] => true
  | (k1, v1) :: as, (k2, v2) :: bs =>
      k1 == k2 && jvalBeq v1 v2 && jvalBeqD as bs
  | _, _ => false

end

theorem jvalBeq_iff_aux : ∀ n,
    (∀ a b : JVal, sizeOf a ≤ n → (jvalBeq a b = true ↔ a = b)) ∧
    (∀ as bs : List JVal, sizeOf as ≤ n → (jvalBeqL as bs = true ↔ as = bs)) ∧
    (∀ ds es : List (String × JVal), sizeOf ds ≤ n →
      (jvalBeqD ds es = true ↔ ds = es)) := by
  intro n
  induction n with
  | zero =>
    refine ⟨fun a b h => ?_, fun as bs h => ?_, fun ds es h => ?_⟩
    · cases a <;> simp at h
    · cases as <;> simp at h
    · cases ds <;> simp at h
  | succ n ih =>
    obtain ⟨ih1, ih2, ih3⟩ := ih
    refine ⟨fun a b h => ?_, fun as bs h => ?_, fun ds es h => ?_⟩
    · cases a <;> cases b <;> try (simp [jvalBeq]; done)
      case jlist.jlist l1 l2 =>
        have h1 : sizeOf l1 ≤ n := by
          simp only [JVal.jlist.sizeOf_spec] at h; omega
        simp only [jvalBeq, ih2 l1 l2 h1, JVal.jlist.injEq]
      case jdict.jdict l1 l2 =>
        have h1 : sizeOf l1 ≤ n := by
          simp only [JVal.jdict.sizeOf_spec] at h; omega
        simp only [jvalBeq, ih3 l1 l2 h1, JVal.jdict.injEq]
    · cases as <;> cases bs <;> try (simp [jvalBeqL]; done)
      case cons.cons a as b bs =>
        simp only [List.cons.sizeOf_spec] at h
        simp only [jvalBeqL, Bool.and_eq_true, ih1 a b (by omega),
          ih2 as bs (by omega), List.cons.injEq]
    · cases ds <;> cases es <;> try (simp [jvalBeqD]; done)
      case cons.cons p ds q es =>
        obtain ⟨k1, v1⟩ := p
        obtain ⟨k2, v2⟩ := q
        simp only [List.cons.sizeOf_spec, Prod.mk.sizeOf_spec] at h
        simp only [jvalBeqD, Bool.and_eq_true, ih1 v1 v2 (by omega),
          ih3 ds es (by omega), List.cons.injEq, Prod.mk.injEq,
          beq_iff_eq, and_assoc]

theorem jvalBeq_iff : ∀ a b : JVal, jvalBeq a b = true ↔ a = b :=
  fun a b => (jvalBeq_iff_aux (sizeOf a)).1 a b le_rfl

instance : BEq JVal := ⟨jvalBeq⟩

instance : LawfulBEq JVal where
  eq_of_beq h := (jvalBeq_iff _ _).mp h
  rfl := (jvalBeq_iff _ _).mpr rfl

instance : DecidableEq JVal :=
  fun a b => decidable_of_iff (jvalBeq a b = true) (jvalBeq_iff a b)

instance {ε α : Type _} [DecidableEq ε] [DecidableEq α] :
    DecidableEq (Except ε α)
  | .ok a, .ok b => decidable_of_iff (a = b) ⟨congrArg Except.ok, Except.ok.inj⟩
  | .error a, .error b =>
      decidable_of_iff (a = b) ⟨congrArg Except.error, Except.error.inj⟩
  | .ok _, .error _ => isFalse (fun h => Except.noConfusion h)
  | .error _, .ok _ => isFalse (fun h => Except.noConfusion h)

/-- `type(value).__name__` for the values `json.load` can produce. -/
def typeName : JVal → String
  | .jnull => "NoneType"
  | .jbool _ => "bool"
  | .jint _ => "int"
  | .jfloat _ => "float"
  | .jstr _ => "str"
  | .jlist _ => "list"
  | .jdict _ => "dict"

def JVal.isDict : JVal → Bool
  | .jdict _ => true
  | _ => false

def JVal.isStr : JVal → Bool
  | .jstr _ => true
  | _ => false

/-- `f'{parent_key}.{key}' if parent_key else key` (source line 31). -/
def mkKey (parent_key key : String) : String :=
  if parent_key = "" then key else parent_key ++ "." ++ key

/-- A flat record `(key_path, type_name, example_value)`. -/
abbrev FlatRecord := String × String × JVal

/-! `explore_json` (source lines 12-43), written over the dict's entry
list. The companion functions transcribe the body's `isinstance` chain one
nesting level at a time, in source order: `exploreValue` is the branch on
one entry's value (dict → recurse, list → inspect, else emit a scalar
record); `exploreSeq` is `if value: first_value = value[0]` (an empty list
contributes nothing); `exploreHead` is the branch on the first element
(dict → recurse with the same extended key, string → one `"list"` record,
anything else → nothing). -/
mutual

/-- Entry-list layer of the flattener: one value branch per entry, then
the rest of the dict. -/
def explore_json : List (String × JVal) → String → List FlatRecord
  | [], _ => []
  | (key, value) :: rest, parent_key =>
      exploreValue value (mkKey parent_key key)
      ++ explore_json rest parent_key

def exploreValue : JVal → String → List FlatRecord
  | .jdict fs, new_key => explore_json fs new_key
  | .jlist vs, new_key => exploreSeq vs new_key
  | v, new_key => [(new_key, typeName v, v)]

def exploreSeq : List JVal → String → List FlatRecord
  | [], _ => []
  | first_value :: _, new_key => exploreHead first_value new_key

def exploreHead : JVal → String → List FlatRecord
  | .jdict fs, new_key => explore_json fs new_key
  | .jstr s, new_key => [(new_key, "list", .jstr s)]
  | _, _ => []

end

/-- Python `explore_json` applied to an arbitrary value, as `create_xlsx_docs`
does at source line 112 with a list's first element: the body immediately
evaluates `data.items()`, which raises `AttributeError` unless the argument
is a dict. -/
def explore_json_any (v : JVal) (parent_key : String) :
    Except Unit (List FlatRecord) :=
  match v with
  | .jdict fs => .ok (explore_json fs parent_key)
  | _ => .error ()

/-! All keys reachable by the flattener's traversal are non-empty strings
(the traversal enters nested dicts and the first element of lists whose
first element is a dict, exactly as `explore_json` does). -/
mutual

/-- Entry-list layer of the non-empty-key check. -/
def keysNE : List (String × JVal) → Bool
  | [] => true
  | (key, value) :: rest =>
      (key ≠ "" : Bool) && keysNEValue value && keysNE rest

def keysNEValue : JVal → Bool
  | .jdict fs => keysNE fs
  | .jlist vs => keysNESeq vs
  | _ => true

def keysNESeq : List JVal → Bool
  | [] => true
  | first_value :: _ => keysNEHead first_value

def keysNEHead : JVal → Bool
  | .jdict fs => keysNE fs
  | _ => true

end

/-! ## Table builder (`create_xlsx_docs`, source lines 93-198) -/

/-- Split a character list at every occurrence of `sep`, keeping empty
segments, as Python `str.split` with an explicit separator does. -/
def splitOnChar (sep : Char) : List Char → List (List Char)
  | [] => [[]]
  | c :: cs =>
    match splitOnChar sep cs with
    | [] => if c = sep then [[], [c]] else [[c]]
    | g :: gs => if c = sep then [] :: g :: gs else (c :: g) :: gs

/-- Python `s.split(sep)` for a one-character separator. -/
def pySplit (s : String) (sep : Char) : List String :=
  (splitOnChar sep s.data).map (fun l => String.mk l)

def listPrefixOf : List Char → List Char → Bool
  | [], _ => true
  | _ :: _, [] => false
  | a :: as, b :: bs => a = b && listPrefixOf as bs

/-- Python `s.startswith(pre)`. -/
def pyStartsWith (s pre : String) : Bool := listPrefixOf pre.data s.data

/-- A table row: an ordered association of column name to cell value.
`JVal.jnull` plays the role of pandas NaN; the only NaN sources in this
program are Python `None` column values and cells absent from a row dict. -/
abbrev Row := List (String × JVal)

def lookupCell (r : Row) (c : String) : Option JVal :=
  (r.find? (fun p => p.1 == c)).map (fun p => p.2)

/-- The row dict built for one flat record (source lines 101-108 / 114-121):
one `Chave nível i` cell per key-path segment, then `Tipo` and `Exemplo`.
`keys_path.split('.')` keeps empty segments, as `pySplit` does. -/
def rowOfRecord : FlatRecord → Row
  | (keys_path, value_type, example_value) =>
    let keys_split := pySplit keys_path '.'
    (keys_split.enum.map
      (fun p => ("Chave nível " ++ toString (p.1 + 1), JVal.jstr p.2)))
    ++ [("Tipo", JVal.jstr value_type), ("Exemplo", example_value)]

structure DF where
  cols : List String
  rows : List Row
deriving DecidableEq

def addColNames (acc : List String) : List String → List String
  | [] => acc
  | c :: cs => addColNames (if acc.contains c then acc else acc ++ [c]) cs

/-- `pd.DataFrame(list_of_dicts)`: the column order is the order of first
appearance of the keys across the row dicts. -/
def mkDF (rows : List Row) : DF :=
  ⟨rows.foldl (fun acc r => addColNames acc (r.map Prod.fst)) [], rows⟩

def setCell (r : Row) (c : String) (v : JVal) : Row :=
  (r.filter (fun p => p.1 ≠ c)) ++ [(c, v)]

/-- `df[c] = v`: assign a constant to a whole column, creating it if new. -/
def DF.setColumn (df : DF) (c : String) (v : JVal) : DF :=
  ⟨if df.cols.contains c then df.cols else df.cols ++ [c],
   df.rows.map (fun r => setCell r c v)⟩

/-- Source lines 139-144: the six documentation columns, `Obrigatório`
initialised to `'SIM'` and the others to `None`. -/
def addDocCols (df : DF) : DF :=
  (((((df.setColumn "Significado" .jnull).setColumn
      "Unidade" .jnull).setColumn
      "Obrigatório" (.jstr "SIM")).setColumn
      "Limite Mínimo" .jnull).setColumn
      "Limite Máximo" .jnull).setColumn
      "Observações" .jnull

/-- The fixed tail of the reordered column list (source lines 151-160). -/
def tailCols : List String :=
  ["Exemplo", "Tipo", "Unidade", "Significado", "Obrigatório",
   "Observações", "Limite Mínimo", "Limite Máximo"]

/-- `x.split()[-1]` for the column names at hand (single spaces only). -/
def lastToken (s : String) : String := (pySplit s ' ').getLastD ""

/-- Python string `<=`: lexicographic comparison by code point. -/
def charListLe : List Char → List Char → Bool
  | [], _ => true
  | _ :: _, [] => false
  | a :: as, b :: bs => if a = b then charListLe as bs else decide (a < b)

def pyStrLe (a b : String) : Bool := charListLe a.data b.data

def tokenRel (a b : String) : Prop := pyStrLe (lastToken a) (lastToken b) = true

instance : DecidableRel tokenRel := fun a b => instDecidableEqBool _ _

/-- Source lines 146-161: keep the columns starting with `Chave`, sort them
by the STRING value of their last token (`sorted(key=lambda x:
x.split()[-1])` compares the rank digits as strings, not numerically), then
extend with the fixed tail. The sorted ranks are pairwise distinct, so
stability of the sort is irrelevant. -/
def reorderCols (cols : List String) : List String :=
  (List.insertionSort tokenRel
    (cols.filter (fun c => pyStartsWith c "Chave"))) ++ tailCols

def reorderDF (df : DF) : DF := ⟨reorderCols df.cols, df.rows⟩

/-- Source lines 163-175: the fixed rename table for the first six levels. -/
def renameCol : String → String
  | "Chave nível 1" => "Chave primária"
  | "Chave nível 2" => "Chave secundária"
  | "Chave nível 3" => "Chave terciária"
  | "Chave nível 4" => "Chave quaternária"
  | "Chave nível 5" => "Chave quinária"
  | "Chave nível 6" => "Chave senária"
  | c => c

def renameDF (df : DF) : DF :=
  ⟨df.cols.map renameCol,
   df.rows.map (fun r => r.map (fun p => (renameCol p.1, p.2)))⟩

/-- `df.fillna('---')` (source line 178): every absent or `None` cell of
every column becomes the placeholder string; rows are normalised to carry
exactly the df's columns, as a materialised DataFrame does. -/
def fillnaRow (cols : List String) (r : Row) : Row :=
  cols.map (fun c =>
    (c, match lookupCell r c with
        | some .jnull => JVal.jstr "---"
        | some v => v
        | none => JVal.jstr "---"))

def fillnaDF (df : DF) : DF := ⟨df.cols, df.rows.map (fillnaRow df.cols)⟩

/-- The columns of the `.agg` dictionary, in source order (lines 186-195). -/
def aggColsList : List String :=
  ["Exemplo", "Tipo", "Unidade", "Significado", "Obrigatório",
   "Observações", "Limite Mínimo", "Limite Máximo"]

/-- The `groupby` key columns: `[col for col in df.columns[:3].tolist() if
col.startswith('Chave')]` (source lines 181-185). -/
def keyColsOf (cols : List String) : List String :=
  (cols.take 3).filter (fun c => pyStartsWith c "Chave")

def keyOf (kc : List String) (r : Row) : List JVal :=
  kc.map (fun c => (lookupCell r c).getD .jnull)

/-- pandas `agg('first')`: the first non-null value of the column within the
group (after the preceding `fillna` no null is ever present). -/
def firstAgg (c : String) (grp : List Row) : JVal :=
  match grp.filterMap (fun r =>
      match lookupCell r c with
      | some .jnull => none
      | some v => some v
      | none => none) with
  | v :: _ => v
  | [] => .jnull

/-- Recursion of the group collapse, on a fuel that bounds the number of
rows left; each step consumes the first remaining row's whole group, so a
fuel equal to the row count never runs out (`collapseFirstAux_eq_of_le`). -/
def collapseFirstAux (kc : List String) : Nat → List Row → List Row
  | _, [] => []
  | 0, _ :: _ => []
  | fuel + 1, r :: rest =>
    let grp := r :: rest.filter (fun r2 => decide (keyOf kc r2 = keyOf kc r))
    (kc.map (fun c => (c, (lookupCell r c).getD .jnull))
      ++ aggColsList.map (fun c => (c, firstAgg c grp)))
    :: collapseFirstAux kc fuel
        (rest.filter (fun r2 => decide (keyOf kc r2 ≠ keyOf kc r)))

/-- One output row per distinct group key, in order of first occurrence:
the group-key cells followed by the aggregated columns. Columns not in the
`agg` dictionary and not group keys are dropped, as pandas does. -/
def collapseFirst (kc : List String) (rows : List Row) : List Row :=
  collapseFirstAux kc rows.length rows

theorem collapseFirstAux_any (kc : List String) :
    ∀ f1 f2 rows, List.length rows ≤ f1 → List.length rows ≤ f2 →
      collapseFirstAux kc f1 rows = collapseFirstAux kc f2 rows := by
  intro f1
  induction f1 with
  | zero =>
    intro f2 rows h1 h2
    cases rows with
    | nil => cases f2 <;> rfl
    | cons r rest => simp at h1
  | succ f1 ih =>
    intro f2 rows h1 h2
    cases rows with
    | nil => cases f2 <;> rfl
    | cons r rest =>
      cases f2 with
      | zero => simp at h2
      | succ g =>
        have hr1 : rest.length ≤ f1 := by
          simp only [List.length_cons] at h1; omega
        have hr2 : rest.length ≤ g := by
          simp only [List.length_cons] at h2; omega
        have hfl := List.length_filter_le
          (fun r2 => decide (keyOf kc r2 ≠ keyOf kc r)) rest
        simp only [collapseFirstAux]
        rw [ih g _ (by omega) (by omega)]

theorem collapseFirstAux_eq_of_le (kc : List String) (f : Nat) (rows : List Row)
    (h : List.length rows ≤ f) :
    collapseFirstAux kc f rows = collapseFirst kc rows :=
  collapseFirstAux_any kc f rows.length rows h (le_refl _)

/-- The one-step unfolding of the collapse on a non-empty row list. -/
theorem collapseFirst_cons (kc : List String) (r : Row) (rest : List Row) :
    collapseFirst kc (r :: rest) =
      (kc.map (fun c => (c, (lookupCell r c).getD .jnull))
        ++ aggColsList.map (fun c => (c, firstAgg c
            (r :: rest.filter (fun r2 => decide (keyOf kc r2 = keyOf kc r))))))
      :: collapseFirst kc
          (rest.filter (fun r2 => decide (keyOf kc r2 ≠ keyOf kc r))) := by
  simp only [collapseFirst, List.length_cons, collapseFirstAux]
  rw [collapseFirstAux_any kc rest.length _ _ (List.length_filter_le _ _) (le_refl _)]

/-- The group-key of a row as strings. In every table this program builds,
group-key cells are strings (key-path segments or the `'---'` placeholder),
so comparing these projections is Python's tuple comparison of the keys. -/
def keyStr (kc : List String) (r : Row) : List String :=
  kc.map (fun c =>
    match lookupCell r c with
    | some (.jstr s) => s
    | _ => "")

/-- Python tuple `<=` over strings: lexicographic, code-point order. -/
def strListLe : List String → List String → Bool
  | [], _ => true
  | _ :: _, [] => false
  | a :: as, b :: bs => if a = b then strListLe as bs else pyStrLe a b

def rowRel (kc : List String) (r1 r2 : Row) : Prop :=
  strListLe (keyStr kc r1) (keyStr kc r2) = true

instance (kc : List String) : DecidableRel (rowRel kc) :=
  fun r1 r2 => instDecidableEqBool _ _

/-- Source lines 180-197: group by the `Chave` columns among the first three
columns, aggregate every column of the `agg` dictionary with `'first'`, and
`reset_index()`. pandas sorts the groups by their key (`sort=True` is the
default). -/
def dedupDF (df : DF) : DF :=
  let kc := keyColsOf df.cols
  ⟨kc ++ aggColsList,
   List.insertionSort (rowRel kc) (collapseFirst kc df.rows)⟩

/-- The whole per-section table build (source lines 100-197). -/
def buildTable (records : List FlatRecord) : DF :=
  dedupDF (fillnaDF (renameDF (reorderDF (addDocCols
    (mkDF (records.map rowOfRecord))))))

/-! ## Pipeline (`create_xlsx_docs`, source lines 64-201) -/

inductive PyErr where
  /-- `ValueError('O arquivo JSON está vazio!')` (source line 82). -/
  | emptyJson : PyErr
  /-- `AttributeError`: `.items()` called on a non-dict. -/
  | attrErr : PyErr
deriving DecidableEq

/-- Python truthiness of a loaded JSON document (`if not data`). -/
def isFalsy : JVal → Bool
  | .jnull => true
  | .jbool b => !b
  | .jint n => n == 0
  | .jfloat q => q == 0
  | .jstr s => s == ""
  | .jlist xs => xs.isEmpty
  | .jdict fs => fs.isEmpty

/-- The records collected for one top-level entry (source lines 98-122):
a dict is explored directly; a non-empty list has `explore_json` applied to
its FIRST element, whatever it is (an `AttributeError` if it is not a
dict); anything else contributes no records. -/
def entryRecords (sub_dict : JVal) : Except PyErr (List FlatRecord) :=
  match sub_dict with
  | .jdict fs => .ok (explore_json fs "")
  | .jlist (first :: _) =>
      match explore_json_any first "" with
      | .ok recs => .ok recs
      | .error _ => .error .attrErr
  | _ => .ok []

/-- The `tables` defaultdict: a section appears only if it contributed at
least one record (`tables[main_key]` is only touched inside
`for record in records`). Each non-empty record list becomes a table. -/
def buildTables : List (String × JVal) → Except PyErr (List (String × DF))
  | [] => .ok []
  | (main_key, sub_dict) :: rest => do
      let recs ← entryRecords sub_dict
      let tl ← buildTables rest
      if recs.isEmpty then pure tl
      else pure ((main_key, buildTable recs) :: tl)

structure Workbook where
  /-- Rows of the `Chaves Principais` index sheet: `(main_key, type name)`.
  The source stores them in a Python `set` with unspecified iteration
  order; insertion order is used here. -/
  mainKeys : List (String × String)
  sheets : List (String × DF)
deriving DecidableEq

/-- `create_xlsx_docs` (source lines 64-201) up to workbook persistence:
the empty-document guard, the per-entry traversal, and the table builds.
`Except.error` means the run raised before writing any output file. -/
def create_xlsx_docs (data : JVal) : Except PyErr Workbook :=
  if isFalsy data then .error .emptyJson
  else
    match data with
    | .jdict entries =>
        (buildTables entries).map
          (fun tables => ⟨entries.map (fun p => (p.1, typeName p.2)), tables⟩)
    | _ => .error .attrErr

/-! ## Styling pass (`merge_equal_cells` and `config_xlsx`, source lines
204-322), modelled at the openpyxl API surface: a sheet is a rectangular
column-major grid of cells, each carrying its data value and its
presentation attributes, plus sheet-level merge ranges, column widths and
the auto-filter flag. -/

structure Cell where
  value : JVal
  bold : Bool
  fill : Option String
  thinBorder : Bool
  centered : Bool
deriving DecidableEq

structure Sheet where
  /-- Column-major cell grid; each column's first entry is the header row. -/
  cols : List (List Cell)
  widths : List Nat
  /-- Vertical merge ranges `(column index, first row, last row)`, 1-based. -/
  merges : List (Nat × Nat × Nat)
  autoFilter : Bool
deriving DecidableEq

/-- ASCII lowering; Python `str.lower` also lowers non-ASCII letters, which
here could only change which fill a cell receives, never any value. -/
def pyCharLower (c : Char) : Char :=
  if 'A' ≤ c ∧ c ≤ 'Z' then Char.ofNat (c.toNat + 32) else c

def pyLower (s : String) : String := String.mk (s.data.map pyCharLower)

/-- Python `cell.value.lower()`: an `AttributeError` unless the cell holds
a string. -/
def valueLower (v : JVal) : Except Unit String :=
  match v with
  | .jstr s => .ok (pyLower s)
  | _ => .error ()

/-- Python `str(value)` for the values a written sheet can hold; it only
feeds the column-width computation. -/
def pyStr : JVal → String
  | .jnull => "None"
  | .jbool b => if b then "True" else "False"
  | .jint n => toString n
  | .jfloat q => toString q
  | .jstr s => s
  | .jlist _ => "<list>"
  | .jdict _ => "<dict>"

def fillYes : String := "00FF00"

def fillNo : String := "FF0000"

/-- Source lines 256-263. -/
def mapping_color_per_type : List (String × String) :=
  [("int", "FFFF00"), ("float", "FFA500"), ("str", "ADD8E6"),
   ("list", "90EE90"), ("dict", "D3D3D3"), ("bool", "FFC0CB")]

/-- `cell.value in mapping_color_per_type` and the subsequent `.get`:
the dict's keys are strings, so only string values can match. -/
def typeFill (v : JVal) : Option String :=
  match v with
  | .jstr s =>
      (mapping_color_per_type.find? (fun p => p.1 == s)).map (fun p => p.2)
  | _ => none

/-- The scan of `merge_equal_cells` (source lines 219-230): its nested
`while` loops walk the column top to bottom splitting it into maximal runs
of consecutive equal values; each run of length greater than one yields the
range `(run start, run end)`. Here the walk carries the current run's value,
start row and length, flushing the run when the value changes. -/
def mergeRunsAux : List JVal → JVal → Nat → Nat → List (Nat × Nat)
  | [], _, start, len => if len > 1 then [(start, start + len - 1)] else []
  | v :: rest, cur, start, len =>
    if v == cur then mergeRunsAux rest cur start (len + 1)
    else
      (if len > 1 then [(start, start + len - 1)] else []) ++
      mergeRunsAux rest v (start + len) 1

def mergeRuns : List JVal → List (Nat × Nat)
  | [] => []
  | v :: rest => mergeRunsAux rest v 1 1

def inAnyRun (runs : List (Nat × Nat)) (row : Nat) : Bool :=
  runs.any (fun ab => ab.1 < row && row ≤ ab.2)

/-- openpyxl `Worksheet.merge_cells` on each computed range: all cells of a
merged range except the top one are removed from the worksheet and read
back as empty ("when you merge cells, all cells but the top-left one are
removed"); their former values are gone after the save. -/
def clearRuns (runs : List (Nat × Nat)) : Nat → List Cell → List Cell
  | _, [] => []
  | row, cell :: rest =>
    (if inAnyRun runs row then { cell with value := .jnull } else cell)
    :: clearRuns runs (row + 1) rest

/-- `merge_equal_cells` (source lines 204-230) on one column: compute the
runs, record them as merge ranges, and apply the merges to the cells. -/
def merge_equal_cells (col : List Cell) : List Cell × List (Nat × Nat) :=
  let runs := mergeRuns (col.map (fun c => c.value))
  (clearRuns runs 1 col, runs)

/-- Source lines 276-277: bold font on every cell of row 1. -/
def boldRow1 (cols : List (List Cell)) : List (List Cell) :=
  cols.map (fun col =>
    match col with
    | [] => []
    | h :: t => { h with bold := true } :: t)

/-- Source lines 279-286, the loop body over column 1, rows 2 and below:
green fill when the lowered value is `'sim'`; the `'não'` branch reads
`cell.fill` without assigning it — a no-op, preserved as such here. -/
def simFillLoop : List Cell → Except Unit (List Cell)
  | [] => .ok []
  | cell :: rest => do
      let s ← valueLower cell.value
      let cell' := if s = "sim" then { cell with fill := some fillYes } else cell
      let rest' ← simFillLoop rest
      pure (cell' :: rest')

def col1SimFill : List (List Cell) → Except Unit (List (List Cell))
  | [] => .ok []
  | c1 :: rest =>
    match c1 with
    | [] => .ok ([] :: rest)
    | h :: t => (simFillLoop t).map (fun t2 => (h :: t2) :: rest)

/-- Source lines 291-305, the per-cell loop body: center alignment, thin
border, and the type-palette fill when the column header is `Tipo`.
`len(str(cell.value))` feeds only the width fold and cannot raise. -/
def styleCell (isTipo : Bool) (cell : Cell) : Cell :=
  let c := { cell with centered := true, thinBorder := true }
  if isTipo then
    match typeFill cell.value with
    | some f => { c with fill := some f }
    | none => c
  else c

/-- Source lines 313-318: the `Obrigatório` column's fills (including the
header cell, which matches neither token). -/
def obrigLoop : List Cell → Except Unit (List Cell)
  | [] => .ok []
  | cell :: rest => do
      let s ← valueLower cell.value
      let cell' :=
        if s = "sim" then { cell with fill := some fillYes }
        else if s = "não" then { cell with fill := some fillNo }
        else cell
      let rest' ← obrigLoop rest
      pure (cell' :: rest')

/-- One iteration of the `for col in ws.columns` loop (source lines
288-318): style every cell and fold the width, then merge equal cells when
the header starts with `Chave` (an `AttributeError` when the header is not
a string), then the `Obrigatório` fills. `idx` is the 1-based column
index used to record merge ranges. -/
def processColumn (idx : Nat) (col : List Cell) :
    Except Unit (List Cell × Nat × List (Nat × Nat × Nat)) := do
  let headVal := ((col.head?).map (fun c => c.value)).getD .jnull
  let isTipo := headVal == .jstr "Tipo"
  let styled := col.map (styleCell isTipo)
  let width := (col.map (fun c => (pyStr c.value).length)).foldl max 0 + 8
  let isChave ←
    (match headVal with
     | .jstr s => Except.ok (pyStartsWith s "Chave")
     | _ => Except.error ())
  let merged := if isChave then merge_equal_cells styled else (styled, [])
  let final ←
    if headVal == .jstr "Obrigatório" then obrigLoop merged.1
    else pure merged.1
  pure (final, width, merged.2.map (fun ab => (idx, ab.1, ab.2)))

def processColumns (idx : Nat) :
    List (List Cell) →
    Except Unit (List (List Cell) × List Nat × List (Nat × Nat × Nat))
  | [] => .ok ([], [], [])
  | col :: rest => do
      let r ← processColumn idx col
      let rs ← processColumns (idx + 1) rest
      pure (r.1 :: rs.1, r.2.1 :: rs.2.1, r.2.2 ++ rs.2.2)

/-- The body of `config_xlsx` for one worksheet (source lines 275-320):
bold header row, the column-1 `sim` fills, the per-column pass, and the
auto-filter over the sheet's dimensions. -/
def config_sheet (s : Sheet) : Except Unit Sheet := do
  let a := boldRow1 s.cols
  let b ← col1SimFill a
  let r ← processColumns 1 b
  pure ⟨r.1, r.2.1, s.merges ++ r.2.2, true⟩

/-- `config_xlsx` (source lines 233-322): apply the styling pass to every
worksheet of the persisted workbook and save. An exception leaves the file
unwritten. -/
def config_xlsx : List Sheet → Except Unit (List Sheet)
  | [] => .ok []
  | s :: rest => do
      let s' ← config_sheet s
      let rest' ← config_xlsx rest
      pure (s' :: rest')

/-- The data value of the cell at 0-based column `ci`, row `ri`. -/
def cellValue (s : Sheet) (ci ri : Nat) : Option JVal :=
  ((s.cols.get? ci).bind (fun col => col.get? ri)).map (fun c => c.value)

/-! ## Flattener claims -/

/-- The flattener processes a dict's entries independently, in order. -/
theorem explore_json_append (pre post : List (String × JVal))
    (parent_key : String) :
    explore_json (pre ++ post) parent_key =
      explore_json pre parent_key ++ explore_json post parent_key := by
  induction pre with
  | nil => rfl
  | cons e rest ih =>
    obtain ⟨k, v⟩ := e
    simp [explore_json, ih]

/-- C2: for every mapping containing a key whose value is a non-empty list
whose first element is a string, `explore_json` emits exactly one record
for that key — type-name `"list"`, example the first string element —
regardless of the remaining list elements, while the other entries
contribute exactly their own records. -/
theorem C2_list_first_string (pre post : List (String × JVal)) (key s : String)
    (restList : List JVal) (parent_key : String) :
    explore_json (pre ++ (key, .jlist (.jstr s :: restList)) :: post)
        parent_key =
      explore_json pre parent_key
      ++ [(mkKey parent_key key, "list", .jstr s)]
      ++ explore_json post parent_key := by
  rw [explore_json_append]
  simp [explore_json, exploreValue, exploreSeq, exploreHead]

/-- C3: a key whose value is an empty list, or a non-empty list whose first
element is neither a dict nor a string, contributes zero records. -/
theorem C3_list_no_record (pre post : List (String × JVal)) (key : String)
    (parent_key : String) :
    (explore_json (pre ++ (key, .jlist []) :: post) parent_key =
      explore_json pre parent_key ++ explore_json post parent_key) ∧
    (∀ v : JVal, ∀ restList : List JVal,
      v.isDict = false → v.isStr = false →
      explore_json (pre ++ (key, .jlist (v :: restList)) :: post) parent_key =
        explore_json pre parent_key ++ explore_json post parent_key) := by
  constructor
  · rw [explore_json_append]
    simp [explore_json, exploreValue, exploreSeq]
  · intro v restList hd hs
    rw [explore_json_append]
    cases v <;> simp_all [explore_json, exploreValue, exploreSeq, exploreHead,
      JVal.isDict, JVal.isStr]

/-- Witness for C3 at a concrete input: a list headed by a number and an
empty list both contribute nothing. -/
theorem C3_witness :
    explore_json [("k", .jlist [.jint 3, .jstr "x"])] "" = [] ∧
    explore_json [("k", .jlist [])] "" = [] := by
  constructor
  · have h := (C3_list_no_record [] [] "k" "").2 (.jint 3) [.jstr "x"]
      (by decide) (by decide)
    simpa using h
  · have h := (C3_list_no_record [] [] "k" "").1
    simpa using h

/-- C4: a key whose value is a non-empty list whose first element is a dict
is flattened by recursing into that first element with the same extended
key-path as if the list were absent (no list index in any path), and no
record derives from any other list element. -/
theorem C4_list_first_dict (pre post : List (String × JVal)) (key : String)
    (fs : List (String × JVal)) (restList : List JVal) (parent_key : String) :
    (explore_json (pre ++ (key, .jlist (.jdict fs :: restList)) :: post)
        parent_key =
      explore_json pre parent_key
      ++ explore_json fs (mkKey parent_key key)
      ++ explore_json post parent_key) ∧
    (explore_json [(key, .jlist (.jdict fs :: restList))] parent_key =
      explore_json [(key, .jdict fs)] parent_key) := by
  constructor
  · rw [explore_json_append]
    simp [explore_json, exploreValue, exploreSeq, exploreHead]
  · simp [explore_json, exploreValue, exploreSeq, exploreHead]

/-- The type names `explore_json` can actually emit: the five runtime names
of JSON scalars plus the literal `"list"` tag; never `"dict"`. -/
def emittedTypeNames : List String :=
  ["str", "int", "float", "bool", "NoneType", "list"]

/-- A non-empty child key extends any parent path to a non-empty path. -/
theorem mkKey_ne (parent_key key : String) (h : key ≠ "") :
    mkKey parent_key key ≠ "" := by
  unfold mkKey
  split
  · exact h
  · intro hc
    have := congrArg String.data hc
    simp [String.data_append] at this

/-- Layered invariant for C1, by strong induction on size: under non-empty
keys, every record the traversal emits has one of the six actually-emitted
type names and a non-empty key-path. -/
theorem c1_types_aux : ∀ n,
    (∀ obj parent_key, sizeOf obj ≤ n → keysNE obj = true →
      ∀ rec ∈ explore_json obj parent_key,
        rec.2.1 ∈ emittedTypeNames ∧ rec.1 ≠ "") ∧
    (∀ v new_key, sizeOf v ≤ n → keysNEValue v = true → new_key ≠ "" →
      ∀ rec ∈ exploreValue v new_key,
        rec.2.1 ∈ emittedTypeNames ∧ rec.1 ≠ "") ∧
    (∀ vs new_key, sizeOf vs ≤ n → keysNESeq vs = true → new_key ≠ "" →
      ∀ rec ∈ exploreSeq vs new_key,
        rec.2.1 ∈ emittedTypeNames ∧ rec.1 ≠ "") ∧
    (∀ v new_key, sizeOf v ≤ n → keysNEHead v = true → new_key ≠ "" →
      ∀ rec ∈ exploreHead v new_key,
        rec.2.1 ∈ emittedTypeNames ∧ rec.1 ≠ "") := by
  intro n
  induction n with
  | zero =>
    refine ⟨fun obj p h => ?_, fun v p h => ?_, fun vs p h => ?_,
      fun v p h => ?_⟩
    · cases obj <;> simp at h
    · cases v <;> simp at h
    · cases vs <;> simp at h
    · cases v <;> simp at h
  | succ n ih =>
    obtain ⟨ihO, ihV, ihS, ihH⟩ := ih
    refine ⟨?_, ?_, ?_, ?_⟩
    · intro obj parent_key hsz hk rec hrec
      cases obj with
      | nil => simp [explore_json] at hrec
      | cons e rest =>
        obtain ⟨k, v⟩ := e
        simp only [keysNE, Bool.and_eq_true, decide_eq_true_eq] at hk
        simp only [List.cons.sizeOf_spec, Prod.mk.sizeOf_spec] at hsz
        simp only [explore_json, List.mem_append] at hrec
        rcases hrec with h1 | h2
        · exact ihV v (mkKey parent_key k) (by omega) hk.1.2
            (mkKey_ne _ _ hk.1.1) rec h1
        · exact ihO rest parent_key (by omega) hk.2 rec h2
    · intro v new_key hsz hk hne rec hrec
      cases v with
      | jdict fs =>
        simp only [JVal.jdict.sizeOf_spec] at hsz
        exact ihO fs new_key (by omega) hk rec
          (by simpa [exploreValue] using hrec)
      | jlist vs =>
        simp only [JVal.jlist.sizeOf_spec] at hsz
        exact ihS vs new_key (by omega) hk hne rec
          (by simpa [exploreValue] using hrec)
      | jnull =>
        simp only [exploreValue, List.mem_singleton] at hrec
        subst hrec; exact ⟨by simp [emittedTypeNames, typeName], hne⟩
      | jbool b =>
        simp only [exploreValue, List.mem_singleton] at hrec
        subst hrec; exact ⟨by simp [emittedTypeNames, typeName], hne⟩
      | jint i =>
        simp only [exploreValue, List.mem_singleton] at hrec
        subst hrec; exact ⟨by simp [emittedTypeNames, typeName], hne⟩
      | jfloat q =>
        simp only [exploreValue, List.mem_singleton] at hrec
        subst hrec; exact ⟨by simp [emittedTypeNames, typeName], hne⟩
      | jstr s =>
        simp only [exploreValue, List.mem_singleton] at hrec
        subst hrec; exact ⟨by simp [emittedTypeNames, typeName], hne⟩
    · intro vs new_key hsz hk hne rec hrec
      cases vs with
      | nil => simp [exploreSeq] at hrec
      | cons f restv =>
        simp only [List.cons.sizeOf_spec] at hsz
        exact ihH f new_key (by omega) hk hne rec
          (by simpa [exploreSeq] using hrec)
    · intro v new_key hsz hk hne rec hrec
      cases v with
      | jdict fs =>
        simp only [JVal.jdict.sizeOf_spec] at hsz
        exact ihO fs new_key (by omega) hk rec
          (by simpa [exploreHead] using hrec)
      | jstr s =>
        simp only [exploreHead, List.mem_singleton] at hrec
        subst hrec; exact ⟨by simp [emittedTypeNames, typeName], hne⟩
      | jnull => simp [exploreHead] at hrec
      | jbool b => simp [exploreHead] at hrec
      | jint i => simp [exploreHead] at hrec
      | jfloat q => simp [exploreHead] at hrec
      | jlist l => simp [exploreHead] at hrec

/-- C1 (amended): for a top-level `explore_json` call on a mapping all of
whose traversed keys are non-empty, every emitted record has a non-empty
key-path, and its type-name is `"list"` or the runtime name of a JSON
scalar — `str`, `int`, `float`, `bool`, or `NoneType`. The original claim
fails on two points fixed here: a JSON `null` value yields the type-name
`"NoneType"`, outside the claimed fixed set, and an empty dict key yields
an empty key-path (see `C1_counterexample`). -/
theorem C1_amended (obj : List (String × JVal)) (h : keysNE obj = true) :
    ∀ rec ∈ explore_json obj "",
      rec.2.1 ∈ emittedTypeNames ∧ rec.1 ≠ "" :=
  (c1_types_aux (sizeOf obj)).1 obj "" le_rfl h

theorem C1_witness :
    keysNE [("a", .jnull), ("b", .jdict [("x", .jint 1)])] = true ∧
    (∀ rec ∈ explore_json [("a", .jnull), ("b", .jdict [("x", .jint 1)])] "",
      rec.2.1 ∈ emittedTypeNames ∧ rec.1 ≠ "") :=
  ⟨by decide, C1_amended _ (by decide)⟩

/-- C1 counterexample: on the mapping `{"": null}` the flattener emits the
record `("", "NoneType", null)`, whose type-name is outside the claimed
fixed set and whose key-path is the empty string. -/
theorem C1_counterexample :
    explore_json [("", .jnull)] "" = [("", "NoneType", .jnull)] ∧
    ¬(∀ rec ∈ explore_json [("", .jnull)] "",
        rec.2.1 ∈ ["str", "int", "float", "bool", "list", "dict"] ∧
        rec.1 ≠ "") := by
  exact ⟨by decide, by decide⟩

/-! ## Pipeline claims -/

/-- C5: a falsy loaded document (e.g. the empty object) makes
`create_xlsx_docs` raise the `ValueError` before any table is built or any
output produced: the run ends in the error state with no workbook. -/
theorem C5_empty_input (data : JVal) (h : isFalsy data = true) :
    create_xlsx_docs data = .error .emptyJson := by
  simp [create_xlsx_docs, h]

theorem C5_witness :
    isFalsy (.jdict []) = true ∧
    create_xlsx_docs (.jdict []) = .error .emptyJson :=
  ⟨by decide, C5_empty_input _ (by decide)⟩

/-- `entryRecords` can only fail with the `AttributeError`. -/
theorem entryRecords_ok_or_attr (v : JVal) :
    (∃ recs, entryRecords v = .ok recs) ∨
      entryRecords v = .error .attrErr := by
  cases v with
  | jlist vs =>
    cases vs with
    | nil => exact .inl ⟨[], rfl⟩
    | cons f restv =>
      cases f <;> simp [entryRecords, explore_json_any]
  | jdict fs => exact .inl ⟨explore_json fs "", rfl⟩
  | jnull => exact .inl ⟨[], rfl⟩
  | jbool b => exact .inl ⟨[], rfl⟩
  | jint i => exact .inl ⟨[], rfl⟩
  | jfloat q => exact .inl ⟨[], rfl⟩
  | jstr s => exact .inl ⟨[], rfl⟩

/-- A top-level entry holding a non-empty list whose first element is not a
dict makes the whole table build fail with the `AttributeError`. -/
theorem buildTables_error (entries : List (String × JVal)) (key : String)
    (v : JVal) (vs : List JVal)
    (hmem : (key, .jlist (v :: vs)) ∈ entries) (hv : v.isDict = false) :
    buildTables entries = .error .attrErr := by
  induction entries with
  | nil => simp at hmem
  | cons e rest ih =>
    obtain ⟨k', v'⟩ := e
    rcases List.mem_cons.mp hmem with heq | htail
    · obtain ⟨hk, hv'⟩ := Prod.mk.injEq .. ▸ heq
      subst hv'
      have : entryRecords (.jlist (v :: vs)) = .error .attrErr := by
        cases v <;> simp_all [entryRecords, explore_json_any, JVal.isDict]
      simp only [buildTables, this]; rfl
    · rcases entryRecords_ok_or_attr v' with ⟨recs, hok⟩ | herr
      · simp only [buildTables, hok, ih htail]; rfl
      · simp only [buildTables, herr]; rfl

/-- C10: any non-empty document with a top-level key mapped to a non-empty
list whose first element is not a dict (e.g. a list of strings) makes
`create_xlsx_docs` apply `explore_json` to that non-dict first element and
abort with an uncaught `AttributeError` — it neither emits a `"list"`
record for the field nor skips it as the sub-level list rules would. -/
theorem C10_toplevel_list (entries : List (String × JVal)) (key : String)
    (v : JVal) (vs : List JVal)
    (hmem : (key, .jlist (v :: vs)) ∈ entries) (hv : v.isDict = false) :
    create_xlsx_docs (.jdict entries) = .error .attrErr := by
  have hne : entries ≠ [] := List.ne_nil_of_mem hmem
  have hfalsy : isFalsy (.jdict entries) = false := by
    cases entries with
    | nil => simp at hne
    | cons e r => simp [isFalsy]
  simp only [create_xlsx_docs, hfalsy, Bool.false_eq_true, if_false,
    buildTables_error entries key v vs hmem hv]
  rfl

theorem C10_witness :
    ((("k", JVal.jlist [.jstr "a", .jstr "b"]) ∈
        [("k", JVal.jlist [.jstr "a", .jstr "b"])]) ∧
      (JVal.jlist [] : JVal).isDict = false) ∧
    create_xlsx_docs (.jdict [("k", .jlist [.jstr "a", .jstr "b"])]) =
      .error .attrErr :=
  ⟨⟨by decide, by decide⟩,
    C10_toplevel_list _ "k" (.jstr "a") [.jstr "b"] (by decide) (by decide)⟩

/-! ## Column-reorder claim (C6) -/

/-- The name of the level-`(i+1)` key column. -/
def levelName (i : Nat) : String := "Chave nível " ++ toString (i + 1)

/-- The columns of a freshly built section DataFrame of depth `d` before
the reorder step: the level columns in order of first appearance, `Tipo`
and `Exemplo` from the row dicts, then the six appended documentation
columns in assignment order (source lines 104-144). -/
def builderCols (d : Nat) : List String :=
  (List.range d).map levelName ++
  ["Tipo", "Exemplo", "Significado", "Unidade", "Obrigatório",
   "Limite Mínimo", "Limite Máximo", "Observações"]

/-- C6 counterexample: at depth 10 the reorder step sorts the rank tokens
as strings, so `Chave nível 10` lands between levels 1 and 2 instead of
last — not the claimed ascending numeric order. The first conjunct checks
that `builderCols 10` really is the column list the pipeline builds for a
depth-10 record. -/
theorem C6_counterexample :
    (addDocCols (mkDF [rowOfRecord
        ("k1.k2.k3.k4.k5.k6.k7.k8.k9.k10", "int", .jint 7)])).cols =
      builderCols 10 ∧
    reorderCols (builderCols 10) =
      ["Chave nível 1", "Chave nível 10", "Chave nível 2", "Chave nível 3",
       "Chave nível 4", "Chave nível 5", "Chave nível 6", "Chave nível 7",
       "Chave nível 8", "Chave nível 9"] ++ tailCols ∧
    reorderCols (builderCols 10) ≠ (List.range 10).map levelName ++ tailCols
    := by
  refine ⟨by decide, by decide, by decide⟩

/-- C6 (amended): the reorder step puts the level-key columns first sorted
by their rank written in decimal and compared as a string, then the fixed
tail `Exemplo, Tipo, Unidade, Significado, Obrigatório, Observações,
Limite Mínimo, Limite Máximo`. For depths up to 9 the string order
coincides with ascending numeric order, as the original claim states; from
depth 10 on it does not (see `C6_counterexample`). -/
theorem C6_amended (d : Nat) (h : d ≤ 9) :
    reorderCols (builderCols d) = (List.range d).map levelName ++ tailCols
    := by
  interval_cases d <;> decide

theorem C6_witness :
    4 ≤ 9 ∧
    reorderCols (builderCols 4) = (List.range 4).map levelName ++ tailCols :=
  ⟨by decide, C6_amended 4 (by decide)⟩

/-! ## Styling-pass claim (C9) -/

theorem exceptBindOk {ε α β : Type} (a : α) (f : α → Except ε β) :
    (Except.ok a >>= f) = f a := rfl

theorem exceptBindErr {ε α β : Type} (e : ε) (f : α → Except ε β) :
    (Except.error e >>= f : Except ε β) = Except.error e := rfl

theorem exceptPureEq {ε α : Type} (a : α) :
    (pure a : Except ε α) = Except.ok a := rfl

/-- The data value of the cell at 0-based column `ci`, row `ri` of a grid. -/
def gridValue (g : List (List Cell)) (ci ri : Nat) : Option JVal :=
  ((g.get? ci).bind (fun col => col.get? ri)).map (fun c => c.value)

theorem cellValue_eq_grid (s : Sheet) (ci ri : Nat) :
    cellValue s ci ri = gridValue s.cols ci ri := rfl

/-- Whether a grid column's header cell holds a string starting with
`Chave` — the condition under which `config_xlsx` merges its cells. -/
def chaveHeaderAt (g : List (List Cell)) (ci : Nat) : Bool :=
  match gridValue g ci 0 with
  | some (JVal.jstr str) => pyStartsWith str "Chave"
  | _ => false

theorem gridValue_boldRow1 (g : List (List Cell)) (ci ri : Nat) :
    gridValue (boldRow1 g) ci ri = gridValue g ci ri := by
  unfold boldRow1 gridValue
  rw [List.get?_map]
  cases hg : g.get? ci with
  | none => rfl
  | some col =>
    cases col with
    | nil => rfl
    | cons h t => cases ri <;> rfl

theorem simFillLoop_values (t t2 : List Cell) (h : simFillLoop t = .ok t2) :
    ∀ i, (t2.get? i).map (fun c => c.value) =
      (t.get? i).map (fun c => c.value) := by
  induction t generalizing t2 with
  | nil =>
    simp only [simFillLoop] at h
    cases h
    intro i; rfl
  | cons cell rest ih =>
    rw [simFillLoop] at h
    cases hv : valueLower cell.value with
    | error e => rw [hv, exceptBindErr] at h; cases h
    | ok s =>
      rw [hv, exceptBindOk] at h
      cases hr : simFillLoop rest with
      | error e => rw [hr, exceptBindErr] at h; cases h
      | ok rest2 =>
        rw [hr, exceptBindOk, exceptPureEq] at h
        cases h
        intro i
        cases i with
        | zero =>
          simp only [List.get?]
          split <;> rfl
        | succ j => exact ih rest2 hr j

theorem col1SimFill_values (g g2 : List (List Cell))
    (h : col1SimFill g = .ok g2) (ci ri : Nat) :
    gridValue g2 ci ri = gridValue g ci ri := by
  cases g with
  | nil => simp only [col1SimFill] at h; cases h; rfl
  | cons c1 rest =>
    cases c1 with
    | nil => simp only [col1SimFill] at h; cases h; rfl
    | cons hd t =>
      simp only [col1SimFill] at h
      cases ht : simFillLoop t with
      | error e => rw [ht] at h; cases h
      | ok t2 =>
        rw [ht] at h
        simp only [Except.map] at h
        cases h
        cases ci with
        | zero =>
          cases ri with
          | zero => rfl
          | succ j =>
            simp only [gridValue, List.get?]
            exact simFillLoop_values t t2 ht j
        | succ cj => rfl

theorem styleCell_value (b : Bool) (c : Cell) :
    (styleCell b c).value = c.value := by
  unfold styleCell
  cases b with
  | false => rfl
  | true =>
    simp only [if_true]
    cases typeFill c.value <;> rfl

theorem obrigLoop_values (t t2 : List Cell) (h : obrigLoop t = .ok t2) :
    ∀ i, (t2.get? i).map (fun c => c.value) =
      (t.get? i).map (fun c => c.value) := by
  induction t generalizing t2 with
  | nil =>
    simp only [obrigLoop] at h
    cases h
    intro i; rfl
  | cons cell rest ih =>
    rw [obrigLoop] at h
    cases hv : valueLower cell.value with
    | error e => rw [hv, exceptBindErr] at h; cases h
    | ok s =>
      rw [hv, exceptBindOk] at h
      cases hr : obrigLoop rest with
      | error e => rw [hr, exceptBindErr] at h; cases h
      | ok rest2 =>
        rw [hr, exceptBindOk, exceptPureEq] at h
        cases h
        intro i
        cases i with
        | zero =>
          simp only [List.get?]
          split
          · rfl
          · split <;> rfl
        | succ j => exact ih rest2 hr j

theorem clearRuns_values (runs : List (Nat × Nat)) :
    ∀ row cells i,
      ((clearRuns runs row cells).get? i).map (fun c => c.value) =
        (cells.get? i).map (fun c => c.value) ∨
      ((clearRuns runs row cells).get? i).map (fun c => c.value) =
        some .jnull := by
  intro row cells
  induction cells generalizing row with
  | nil => intro i; left; rfl
  | cons cell rest ih =>
    intro i
    cases i with
    | zero =>
      simp only [clearRuns, List.get?]
      split
      · right; rfl
      · left; rfl
    | succ j =>
      simpa only [clearRuns, List.get?] using ih (row + 1) j

/-- Whether a column's header cell holds a string starting with `Chave`. -/
def colChave (col : List Cell) : Bool :=
  match (col.head?).map (fun c => c.value) with
  | some (JVal.jstr str) => pyStartsWith str "Chave"
  | _ => false

theorem styled_values (b : Bool) (col : List Cell) (i : Nat) :
    ((col.map (styleCell b)).get? i).map (fun c => c.value) =
      (col.get? i).map (fun c => c.value) := by
  rw [List.get?_map]
  cases col.get? i with
  | none => rfl
  | some c => simp [styleCell_value]

theorem processColumn_values (idx : Nat) (col cells' : List Cell)
    (w : Nat) (m : List (Nat × Nat × Nat))
    (h : processColumn idx col = .ok (cells', w, m)) :
    ∀ i, (cells'.get? i).map (fun c => c.value) =
        (col.get? i).map (fun c => c.value) ∨
      ((cells'.get? i).map (fun c => c.value) = some .jnull ∧
        colChave col = true) := by
  intro i
  simp only [processColumn] at h
  cases hv : ((col.head?).map (fun c => c.value)).getD JVal.jnull with
  | jstr s =>
    rw [hv] at h
    simp only [exceptBindOk] at h
    have hcv : colChave col = pyStartsWith s "Chave" := by
      cases hc : col.head? with
      | none => rw [hc] at hv; simp at hv
      | some cell =>
        rw [hc] at hv
        simp at hv
        simp [colChave, hc, hv]
    by_cases hch : pyStartsWith s "Chave" = true
    · simp only [hch, if_true] at h
      by_cases hob : (JVal.jstr s == JVal.jstr "Obrigatório") = true
      · simp only [hob, if_true] at h
        cases ho : obrigLoop (merge_equal_cells (col.map (styleCell
            (JVal.jstr s == JVal.jstr "Tipo")))).1 with
        | error e => rw [ho, exceptBindErr] at h; cases h
        | ok fin =>
          rw [ho, exceptBindOk, exceptPureEq] at h
          cases h
          have h1 := obrigLoop_values _ _ ho i
          rcases clearRuns_values (mergeRuns ((col.map (styleCell
              (JVal.jstr s == JVal.jstr "Tipo"))).map (fun c => c.value))) 1
              (col.map (styleCell (JVal.jstr s == JVal.jstr "Tipo"))) i with
            h2 | h2
          · left
            rw [h1]
            calc _ = _ := h2
            _ = _ := styled_values _ col i
          · right
            refine ⟨?_, by rw [hcv]; exact hch⟩
            rw [h1]
            exact h2
      · simp only [hob, if_false, Bool.false_eq_true, exceptPureEq,
          exceptBindOk] at h
        cases h
        rcases clearRuns_values (mergeRuns ((col.map (styleCell
            (JVal.jstr s == JVal.jstr "Tipo"))).map (fun c => c.value))) 1
            (col.map (styleCell (JVal.jstr s == JVal.jstr "Tipo"))) i with
          h2 | h2
        · left
          calc _ = _ := h2
          _ = _ := styled_values _ col i
        · right
          exact ⟨h2, by rw [hcv]; exact hch⟩
    · simp only [hch, if_false, Bool.false_eq_true] at h
      by_cases hob : (JVal.jstr s == JVal.jstr "Obrigatório") = true
      · simp only [hob, if_true] at h
        cases ho : obrigLoop (col.map (styleCell
            (JVal.jstr s == JVal.jstr "Tipo"))) with
        | error e => rw [ho, exceptBindErr] at h; cases h
        | ok fin =>
          rw [ho, exceptBindOk, exceptPureEq] at h
          cases h
          left
          rw [obrigLoop_values _ _ ho i]
          exact styled_values _ col i
      · simp only [hob, if_false, Bool.false_eq_true, exceptPureEq,
          exceptBindOk] at h
        cases h
        left
        exact styled_values _ col i
  | jnull => rw [hv] at h; cases h
  | jbool b => rw [hv] at h; cases h
  | jint n => rw [hv] at h; cases h
  | jfloat q => rw [hv] at h; cases h
  | jlist l => rw [hv] at h; cases h
  | jdict fs => rw [hv] at h; cases h

theorem processColumns_values (g : List (List Cell)) :
    ∀ idx res, processColumns idx g = .ok res →
    ∀ ci ri, gridValue res.1 ci ri = gridValue g ci ri ∨
      (gridValue res.1 ci ri = some .jnull ∧ chaveHeaderAt g ci = true) := by
  induction g with
  | nil =>
    intro idx res h ci ri
    simp only [processColumns] at h
    cases h
    left; rfl
  | cons col rest ih =>
    intro idx res h ci ri
    rw [processColumns] at h
    cases hp : processColumn idx col with
    | error e => rw [hp, exceptBindErr] at h; cases h
    | ok r =>
      rw [hp, exceptBindOk] at h
      cases hr : processColumns (idx + 1) rest with
      | error e => rw [hr, exceptBindErr] at h; cases h
      | ok rs =>
        rw [hr, exceptBindOk, exceptPureEq] at h
        cases h
        cases ci with
        | zero =>
          obtain ⟨cells2, w2, m2⟩ := r
          have hpc := processColumn_values idx col cells2 w2 m2 hp ri
          have hgl : gridValue (cells2 :: rs.1) 0 ri =
              (cells2.get? ri).map (fun c => c.value) := rfl
          have hgr : gridValue (col :: rest) 0 ri =
              (col.get? ri).map (fun c => c.value) := rfl
          have hch : chaveHeaderAt (col :: rest) 0 = colChave col := by
            unfold chaveHeaderAt colChave gridValue
            cases col with
            | nil => rfl
            | cons c t => rfl
          rw [hgl, hgr, hch]
          exact hpc
        | succ cj =>
          have := ih (idx + 1) rs hr cj ri
          have hgl : gridValue (r.1 :: rs.1) (cj + 1) ri =
              gridValue rs.1 cj ri := rfl
          have hgr : gridValue (col :: rest) (cj + 1) ri =
              gridValue rest cj ri := rfl
          have hch : chaveHeaderAt (col :: rest) (cj + 1) =
              chaveHeaderAt rest cj := rfl
          rw [hgl, hgr, hch]
          exact this

theorem config_sheet_values (s s' : Sheet) (h : config_sheet s = .ok s')
    (ci ri : Nat) :
    cellValue s' ci ri = cellValue s ci ri ∨
      (cellValue s' ci ri = some .jnull ∧
        chaveHeaderAt s.cols ci = true) := by
  simp only [config_sheet] at h
  cases hb : col1SimFill (boldRow1 s.cols) with
  | error e => rw [hb, exceptBindErr] at h; cases h
  | ok b =>
    rw [hb, exceptBindOk] at h
    cases hp : processColumns 1 b with
    | error e => rw [hp, exceptBindErr] at h; cases h
    | ok r =>
      rw [hp, exceptBindOk, exceptPureEq] at h
      cases h
      have hbv : ∀ cj rj, gridValue b cj rj = gridValue s.cols cj rj := by
        intro cj rj
        rw [col1SimFill_values _ _ hb cj rj, gridValue_boldRow1]
      have hchb : chaveHeaderAt b ci = chaveHeaderAt s.cols ci := by
        unfold chaveHeaderAt
        rw [hbv ci 0]
      have := processColumns_values b 1 r hp ci ri
      rw [cellValue_eq_grid, cellValue_eq_grid]
      simp only []
      rcases this with h1 | ⟨h1, h2⟩
      · left; rw [h1]; exact hbv ci ri
      · right; exact ⟨h1, hchb ▸ h2⟩

/-- C9 counterexample: a key column holding `Chave primária, a, a` comes
out of the styling pass with its third cell emptied — `merge_equal_cells`
merges rows 2-3 and openpyxl discards the value of the non-anchor cell, so
the pass does not leave every cell's data value unchanged. -/
theorem C9_counterexample :
    cellValue ⟨[[⟨.jstr "Chave primária", false, none, false, false⟩,
        ⟨.jstr "a", false, none, false, false⟩,
        ⟨.jstr "a", false, none, false, false⟩]], [], [], false⟩ 0 2 =
      some (.jstr "a") ∧
    (config_xlsx [⟨[[⟨.jstr "Chave primária", false, none, false, false⟩,
        ⟨.jstr "a", false, none, false, false⟩,
        ⟨.jstr "a", false, none, false, false⟩]], [], [], false⟩]).map
      (fun ws => ws.map (fun sh => cellValue sh 0 2)) =
      .ok [some .jnull] := by
  exact ⟨by decide, by decide⟩

/-- C9 (amended): when the styling pass `config_xlsx` succeeds on a
persisted workbook, every cell of every sheet either keeps exactly the
data value it was written with, or is a cell of a key column (header
starting with `Chave`) that was merged away as a non-anchor member of a
run of equal values and reads back as empty. All other modifications are
presentation attributes (font, fill, border, alignment, width, merge
ranges, auto-filter). The original claim fails on the merged-away cells
(see `C9_counterexample`). -/
theorem C9_amended (sheets sheets' : List Sheet)
    (h : config_xlsx sheets = .ok sheets') :
    ∀ si s s', sheets.get? si = some s → sheets'.get? si = some s' →
      ∀ ci ri,
        cellValue s' ci ri = cellValue s ci ri ∨
          (cellValue s' ci ri = some .jnull ∧
            chaveHeaderAt s.cols ci = true) := by
  induction sheets generalizing sheets' with
  | nil =>
    simp only [config_xlsx] at h
    cases h
    intro si s s' hs
    simp at hs
  | cons sh rest ih =>
    rw [config_xlsx] at h
    cases hc : config_sheet sh with
    | error e => rw [hc, exceptBindErr] at h; cases h
    | ok sh2 =>
      rw [hc, exceptBindOk] at h
      cases hr : config_xlsx rest with
      | error e => rw [hr, exceptBindErr] at h; cases h
      | ok rest2 =>
        rw [hr, exceptBindOk, exceptPureEq] at h
        cases h
        intro si s s' hs hs'
        cases si with
        | zero =>
          simp only [List.get?] at hs hs'
          cases hs; cases hs'
          exact config_sheet_values _ _ hc
        | succ sj =>
          simp only [List.get?] at hs hs'
          exact ih rest2 hr sj s s' hs hs'

theorem C9_witness :
    config_xlsx [⟨[[⟨.jstr "Tipo", false, none, false, false⟩]], [], [],
        false⟩] =
      .ok [⟨[[⟨.jstr "Tipo", true, none, true, true⟩]], [12], [], true⟩] ∧
    ([⟨[[⟨.jstr "Tipo", false, none, false, false⟩]], [], [],
        false⟩] : List Sheet).get? 0 =
      some ⟨[[⟨.jstr "Tipo", false, none, false, false⟩]], [], [], false⟩ ∧
    (cellValue ⟨[[⟨.jstr "Tipo", true, none, true, true⟩]], [12], [], true⟩
        0 0 =
      cellValue ⟨[[⟨.jstr "Tipo", false, none, false, false⟩]], [], [],
        false⟩ 0 0 ∨
      (cellValue ⟨[[⟨.jstr "Tipo", true, none, true, true⟩]], [12], [],
          true⟩ 0 0 = some .jnull ∧
        chaveHeaderAt [[⟨.jstr "Tipo", false, none, false, false⟩]] 0 =
          true)) :=
  ⟨by decide, by decide,
    C9_amended
      [⟨[[⟨.jstr "Tipo", false, none, false, false⟩]], [], [], false⟩]
      [⟨[[⟨.jstr "Tipo", true, none, true, true⟩]], [12], [], true⟩]
      (by decide) 0
      ⟨[[⟨.jstr "Tipo", false, none, false, false⟩]], [], [], false⟩
      ⟨[[⟨.jstr "Tipo", true, none, true, true⟩]], [12], [], true⟩
      (by decide) (by decide) 0 0⟩

/-! ## Deduplication claims (C7, C8): order lemmas for the group-key sort -/

theorem charListLe_total : ∀ a b : List Char,
    charListLe a b = true ∨ charListLe b a = true := by
  intro a
  induction a with
  | nil => intro b; left; rfl
  | cons x xs ih =>
    intro b
    cases b with
    | nil => right; rfl
    | cons y ys =>
      by_cases hxy : x = y
      · subst hxy
        rcases ih ys with h | h
        · left; simpa [charListLe] using h
        · right; simpa [charListLe] using h
      · rcases lt_or_gt_of_ne hxy with hlt | hgt
        · left; simp [charListLe, hxy, hlt]
        · right
          have hyx : y ≠ x := fun hc => hxy hc.symm
          simp [charListLe, hyx, hgt]

theorem charListLe_trans : ∀ a b c : List Char,
    charListLe a b = true → charListLe b c = true →
      charListLe a c = true := by
  intro a
  induction a with
  | nil => intro b c h1 h2; rfl
  | cons x xs ih =>
    intro b c h1 h2
    cases b with
    | nil => simp [charListLe] at h1
    | cons y ys =>
      cases c with
      | nil => simp [charListLe] at h2
      | cons z zs =>
        by_cases hxy : x = y <;> by_cases hyz : y = z
        · subst hxy; subst hyz
          simp only [charListLe, if_pos rfl] at h1 h2 ⊢
          exact ih ys zs h1 h2
        · subst hxy
          simp only [charListLe, if_pos rfl] at h1
          simpa [charListLe, hyz] using h2
        · subst hyz
          simp only [charListLe, if_pos rfl] at h2
          simpa [charListLe, hxy] using h1
        · simp only [charListLe, if_neg hxy, decide_eq_true_eq] at h1
          simp only [charListLe, if_neg hyz, decide_eq_true_eq] at h2
          have hxz : x < z := lt_trans h1 h2
          simp [charListLe, ne_of_lt hxz, hxz]

theorem charListLe_antisymm : ∀ a b : List Char,
    charListLe a b = true → charListLe b a = true → a = b := by
  intro a
  induction a with
  | nil =>
    intro b h1 h2
    cases b with
    | nil => rfl
    | cons y ys => simp [charListLe] at h2
  | cons x xs ih =>
    intro b h1 h2
    cases b with
    | nil => simp [charListLe] at h1
    | cons y ys =>
      by_cases hxy : x = y
      · subst hxy
        simp only [charListLe, if_pos rfl] at h1 h2
        rw [ih ys h1 h2]
      · have hyx : y ≠ x := fun hc => hxy hc.symm
        simp only [charListLe, if_neg hxy, decide_eq_true_eq] at h1
        simp only [charListLe, if_neg hyx, decide_eq_true_eq] at h2
        exact absurd h2 (lt_asymm h1)

theorem pyStrLe_trans (a b c : String) (h1 : pyStrLe a b = true)
    (h2 : pyStrLe b c = true) : pyStrLe a c = true :=
  charListLe_trans a.data b.data c.data h1 h2

theorem pyStrLe_antisymm (a b : String) (h1 : pyStrLe a b = true)
    (h2 : pyStrLe b a = true) : a = b :=
  String.ext (charListLe_antisymm a.data b.data h1 h2)

theorem strListLe_total : ∀ a b : List String,
    strListLe a b = true ∨ strListLe b a = true := by
  intro a
  induction a with
  | nil => intro b; left; rfl
  | cons x xs ih =>
    intro b
    cases b with
    | nil => right; rfl
    | cons y ys =>
      by_cases hxy : x = y
      · subst hxy
        rcases ih ys with h | h
        · left; simpa [strListLe] using h
        · right; simpa [strListLe] using h
      · have hyx : y ≠ x := fun hc => hxy hc.symm
        rcases charListLe_total x.data y.data with h | h
        · left; simpa [strListLe, hxy] using h
        · right; simpa [strListLe, hyx] using h

theorem strListLe_trans : ∀ a b c : List String,
    strListLe a b = true → strListLe b c = true →
      strListLe a c = true := by
  intro a
  induction a with
  | nil => intro b c h1 h2; rfl
  | cons x xs ih =>
    intro b c h1 h2
    cases b with
    | nil => simp [strListLe] at h1
    | cons y ys =>
      cases c with
      | nil => simp [strListLe] at h2
      | cons z zs =>
        by_cases hxy : x = y <;> by_cases hyz : y = z
        · subst hxy; subst hyz
          simp only [strListLe, if_pos rfl] at h1 h2 ⊢
          exact ih ys zs h1 h2
        · subst hxy
          simp only [strListLe, if_pos rfl] at h1
          simpa [strListLe, hyz] using h2
        · subst hyz
          simp only [strListLe, if_pos rfl] at h2
          simpa [strListLe, hxy] using h1
        · simp only [strListLe, if_neg hxy] at h1
          simp only [strListLe, if_neg hyz] at h2
          have hxz : x ≠ z := by
            intro hc
            subst hc
            exact hxy (pyStrLe_antisymm x y h1 h2)
          simp [strListLe, hxz, pyStrLe_trans x y z h1 h2]

instance rowRelTotal (kc : List String) : IsTotal Row (rowRel kc) :=
  ⟨fun r1 r2 => strListLe_total (keyStr kc r1) (keyStr kc r2)⟩

instance rowRelTrans (kc : List String) : IsTrans Row (rowRel kc) :=
  ⟨fun r1 r2 r3 => strListLe_trans (keyStr kc r1) (keyStr kc r2)
    (keyStr kc r3)⟩

/-! Lookup lemmas for the rows `reset_index` rebuilds: the group-key cells
followed by the aggregated cells. -/

/-- The output row `reset_index` produces for one group: the group-key
cells taken from the group's first row `r0`, then the aggregated columns
over the whole group `grp`. -/
def groupRow (kc : List String) (r0 : Row) (grp : List Row) : Row :=
  kc.map (fun c => (c, (lookupCell r0 c).getD .jnull)) ++
  aggColsList.map (fun c => (c, firstAgg c grp))

theorem lookupCell_map_self (f : String → JVal) :
    ∀ l : List String, ∀ c ∈ l,
      lookupCell (l.map (fun x => (x, f x))) c = some (f c) := by
  intro l
  induction l with
  | nil => intro c hc; simp at hc
  | cons d rest ih =>
    intro c hc
    by_cases hdc : d = c
    · subst hdc
      simp [lookupCell, List.find?]
    · rcases List.mem_cons.mp hc with h | h
      · exact absurd h.symm hdc
      · have : (d == c) = false := by
          simp [hdc]
        simpa [lookupCell, List.find?, this] using ih c h

theorem lookupCell_map_none (f : String → JVal) :
    ∀ l : List String, ∀ c, c ∉ l →
      lookupCell (l.map (fun x => (x, f x))) c = none := by
  intro l
  induction l with
  | nil => intro c hc; rfl
  | cons d rest ih =>
    intro c hc
    have hdc : d ≠ c := fun h => hc (h ▸ List.mem_cons_self d rest)
    have : (d == c) = false := by simp [hdc]
    simpa [lookupCell, List.find?, this] using
      ih c (fun h => hc (List.mem_cons_of_mem d h))

theorem lookupCell_append (r1 r2 : Row) (c : String) :
    lookupCell (r1 ++ r2) c =
      match lookupCell r1 c with
      | some v => some v
      | none => lookupCell r2 c := by
  induction r1 with
  | nil => simp [lookupCell]
  | cons p rest ih =>
    by_cases hp : (p.1 == c) = true
    · simp [lookupCell, List.find?, hp]
    · have hp' : (p.1 == c) = false := by
        cases hb : (p.1 == c)
        · rfl
        · exact absurd hb hp
      simpa [lookupCell, List.find?, hp'] using ih

theorem lookupCell_groupRow_key (kc : List String) (r0 : Row)
    (grp : List Row) (c : String) (hc : c ∈ kc) :
    lookupCell (groupRow kc r0 grp) c = some ((lookupCell r0 c).getD .jnull)
    := by
  unfold groupRow
  rw [lookupCell_append, lookupCell_map_self _ kc c hc]

theorem lookupCell_groupRow_agg (kc : List String) (r0 : Row)
    (grp : List Row) (c : String) (hc : c ∈ aggColsList) (hnc : c ∉ kc) :
    lookupCell (groupRow kc r0 grp) c = some (firstAgg c grp) := by
  unfold groupRow
  rw [lookupCell_append, lookupCell_map_none _ kc c hnc,
    lookupCell_map_self _ aggColsList c hc]

/-- The group-key of a rebuilt row is the group-key of its source row. -/
theorem keyOf_groupRow (kc : List String) (r0 : Row) (grp : List Row) :
    keyOf kc (groupRow kc r0 grp) = keyOf kc r0 := by
  unfold keyOf
  refine List.map_congr_left ?_
  intro c hc
  rw [lookupCell_groupRow_key kc r0 grp c hc]
  rfl

theorem aggColsList_not_chave :
    ∀ c ∈ aggColsList, pyStartsWith c "Chave" = false := by decide

theorem keyColsOf_chave (cols : List String) :
    ∀ c ∈ keyColsOf cols, pyStartsWith c "Chave" = true := by
  intro c hc
  exact (List.mem_filter.mp hc).2

theorem keyColsOf_not_agg (cols : List String) :
    ∀ c ∈ keyColsOf cols, c ∉ aggColsList := by
  intro c hc hagg
  have h1 := keyColsOf_chave cols c hc
  have h2 := aggColsList_not_chave c hagg
  rw [h1] at h2
  cases h2

/-- The key columns the second `groupby` would pick from a deduplicated
table are the same as the first one's. -/
theorem keyColsOf_out (cols : List String) :
    keyColsOf (keyColsOf cols ++ aggColsList) = keyColsOf cols := by
  have hlen : (keyColsOf cols).length ≤ 3 := by
    unfold keyColsOf
    calc ((cols.take 3).filter (fun c => pyStartsWith c "Chave")).length
        ≤ (cols.take 3).length := List.length_filter_le _ _
      _ ≤ 3 := by simpa using List.length_take_le 3 cols
  have hchave := keyColsOf_chave cols
  generalize hkc : keyColsOf cols = kc at hlen hchave ⊢
  unfold keyColsOf
  rw [List.take_append_eq_append_take,
    List.take_of_length_le hlen, List.filter_append]
  have h1 : kc.filter (fun c => pyStartsWith c "Chave") = kc := by
    rw [List.filter_eq_self]
    intro c hc
    simpa using hchave c hc
  have h2 : (aggColsList.take (3 - kc.length)).filter
      (fun c => pyStartsWith c "Chave") = [] := by
    rw [List.filter_eq_nil_iff]
    intro c hc
    have : c ∈ aggColsList := List.take_subset _ _ hc
    simp [aggColsList_not_chave c this]
  rw [h1, h2, List.append_nil]

/-- Every key of a collapsed table was the key of some input row. -/
theorem collapseFirst_keys (kc : List String) :
    ∀ n rows, List.length rows ≤ n → ∀ r' ∈ collapseFirst kc rows,
      ∃ r, r ∈ rows ∧ keyOf kc r' = keyOf kc r := by
  intro n
  induction n with
  | zero =>
    intro rows h r' hr'
    cases rows with
    | nil => simp [collapseFirst, collapseFirstAux] at hr'
    | cons a b => simp at h
  | succ n ih =>
    intro rows h r' hr'
    cases rows with
    | nil => simp [collapseFirst, collapseFirstAux] at hr'
    | cons r rest =>
      rw [collapseFirst_cons] at hr'
      rcases List.mem_cons.mp hr' with heq | htail
      · refine ⟨r, List.mem_cons_self r rest, ?_⟩
        rw [heq]
        exact keyOf_groupRow kc r _
      · have hlen : (rest.filter
            (fun r2 => decide (keyOf kc r2 ≠ keyOf kc r))).length ≤ n := by
          have := List.length_filter_le
            (fun r2 => decide (keyOf kc r2 ≠ keyOf kc r)) rest
          simp only [List.length_cons] at h
          omega
        obtain ⟨r2, hmem, hk⟩ := ih _ hlen r' htail
        exact ⟨r2, List.mem_cons_of_mem r (List.mem_of_mem_filter hmem), hk⟩

/-- Every row of a collapsed table is a rebuilt group row. -/
theorem collapseFirst_shape (kc : List String) :
    ∀ n rows, List.length rows ≤ n → ∀ r' ∈ collapseFirst kc rows,
      ∃ r0 grp, r' = groupRow kc r0 grp := by
  intro n
  induction n with
  | zero =>
    intro rows h r' hr'
    cases rows with
    | nil => simp [collapseFirst, collapseFirstAux] at hr'
    | cons a b => simp at h
  | succ n ih =>
    intro rows h r' hr'
    cases rows with
    | nil => simp [collapseFirst, collapseFirstAux] at hr'
    | cons r rest =>
      rw [collapseFirst_cons] at hr'
      rcases List.mem_cons.mp hr' with heq | htail
      · exact ⟨r, _, heq⟩
      · have hlen : (rest.filter
            (fun r2 => decide (keyOf kc r2 ≠ keyOf kc r))).length ≤ n := by
          have := List.length_filter_le
            (fun r2 => decide (keyOf kc r2 ≠ keyOf kc r)) rest
          simp only [List.length_cons] at h
          omega
        exact ih _ hlen r' htail

/-- The keys of a collapsed table are pairwise distinct. -/
theorem collapseFirst_pairwise (kc : List String) :
    ∀ n rows, List.length rows ≤ n →
      List.Pairwise (fun a b => keyOf kc a ≠ keyOf kc b)
        (collapseFirst kc rows) := by
  intro n
  induction n with
  | zero =>
    intro rows h
    cases rows with
    | nil => simp [collapseFirst, collapseFirstAux]
    | cons a b => simp at h
  | succ n ih =>
    intro rows h
    cases rows with
    | nil => simp [collapseFirst, collapseFirstAux]
    | cons r rest =>
      rw [collapseFirst_cons]
      have hlen : (rest.filter
          (fun r2 => decide (keyOf kc r2 ≠ keyOf kc r))).length ≤ n := by
        have := List.length_filter_le
          (fun r2 => decide (keyOf kc r2 ≠ keyOf kc r)) rest
        simp only [List.length_cons] at h
        omega
      refine List.Pairwise.cons ?_ (ih _ hlen)
      intro r' hr'
      obtain ⟨r2, hmem, hk⟩ :=
        collapseFirst_keys kc _ _ le_rfl r' hr'
      have hne : keyOf kc r2 ≠ keyOf kc r := by
        have := (List.mem_filter.mp hmem).2
        simpa using this
      have hgoal : keyOf kc (groupRow kc r
          (r :: rest.filter
            (fun r2 => decide (keyOf kc r2 = keyOf kc r)))) ≠
          keyOf kc r' := by
        rw [keyOf_groupRow, hk]
        exact fun hc => hne hc.symm
      exact hgoal

theorem firstAgg_cons_some (c : String) (r : Row) (grp : List Row)
    (v : JVal) (hv : lookupCell r c = some v) (hnn : v ≠ .jnull) :
    firstAgg c (r :: grp) = v := by
  unfold firstAgg
  rw [List.filterMap_cons]
  rw [hv]
  cases v with
  | jnull => exact absurd rfl hnn
  | jbool b => rfl
  | jint n => rfl
  | jfloat q => rfl
  | jstr s => rfl
  | jlist l => rfl
  | jdict fs => rfl

theorem firstAgg_singleton (c : String) (r' : Row) (grp : List Row)
    (h : lookupCell r' c = some (firstAgg c grp)) :
    firstAgg c [r'] = firstAgg c grp := by
  by_cases hn : firstAgg c grp = .jnull
  · rw [hn] at h ⊢
    unfold firstAgg
    rw [List.filterMap_cons, h]
    rfl
  · exact firstAgg_cons_some c r' [] _ h hn

/-- Re-collapsing a singleton group rebuilt by `reset_index` reproduces the
same row. -/
theorem groupRow_rebuild (kc : List String) (R r0 : Row) (grp : List Row)
    (hR : R = groupRow kc r0 grp)
    (hdisj : ∀ c ∈ kc, c ∉ aggColsList) :
    groupRow kc R [R] = R := by
  have hkey : ∀ c ∈ kc,
      lookupCell R c = some ((lookupCell r0 c).getD .jnull) := by
    intro c hc
    rw [hR]
    exact lookupCell_groupRow_key kc r0 grp c hc
  have hagg : ∀ c ∈ aggColsList,
      lookupCell R c = some (firstAgg c grp) := by
    intro c hc
    have hnc : c ∉ kc := fun hck => (hdisj c hck) hc
    rw [hR]
    exact lookupCell_groupRow_agg kc r0 grp c hc hnc
  unfold groupRow
  conv_rhs => rw [hR, groupRow]
  congr 1
  · refine List.map_congr_left ?_
    intro c hc
    rw [hkey c hc]
    rfl
  · refine List.map_congr_left ?_
    intro c hc
    rw [firstAgg_singleton c R grp (hagg c hc)]

/-- Collapsing a table whose rows are rebuilt group rows with pairwise
distinct keys changes nothing. -/
theorem collapseFirst_distinct_id (kc : List String)
    (hdisj : ∀ c ∈ kc, c ∉ aggColsList) :
    ∀ n rows, List.length rows ≤ n →
      List.Pairwise (fun a b => keyOf kc a ≠ keyOf kc b) rows →
      (∀ r' ∈ rows, ∃ r0 grp, r' = groupRow kc r0 grp) →
      collapseFirst kc rows = rows := by
  intro n
  induction n with
  | zero =>
    intro rows h _ _
    cases rows with
    | nil => rfl
    | cons a b => simp at h
  | succ n ih =>
    intro rows h hpw hshape
    cases rows with
    | nil => rfl
    | cons r rest =>
      rw [collapseFirst_cons]
      have hkeys : ∀ r2 ∈ rest, keyOf kc r2 ≠ keyOf kc r := by
        intro r2 h2 hc
        exact (List.pairwise_cons.mp hpw).1 r2 h2 hc.symm
      have hfilEq : rest.filter
          (fun r2 => decide (keyOf kc r2 = keyOf kc r)) = [] := by
        rw [List.filter_eq_nil_iff]
        intro a ha
        simpa using hkeys a ha
      have hfilNe : rest.filter
          (fun r2 => decide (keyOf kc r2 ≠ keyOf kc r)) = rest := by
        rw [List.filter_eq_self]
        intro a ha
        simpa using hkeys a ha
      rw [hfilEq, hfilNe]
      obtain ⟨r0, grp, hR⟩ := hshape r (List.mem_cons_self r rest)
      have hre := groupRow_rebuild kc r r0 grp hR hdisj
      have hlen : rest.length ≤ n := by
        simp only [List.length_cons] at h
        omega
      have htail := ih rest hlen (List.pairwise_cons.mp hpw).2
        (fun r' hr' => hshape r' (List.mem_cons_of_mem r hr'))
      rw [htail]
      exact congrArg (fun x => x :: rest) hre

/-- The rows of a collapsed table that carry a given group key: exactly one,
rebuilt from that key's group in the original table (first row's key cells,
`first`-aggregated columns over the whole group). -/
theorem collapseFirst_filter_key (kc : List String) :
    ∀ n rows, List.length rows ≤ n → ∀ k r0 grpRest,
      rows.filter (fun r => decide (keyOf kc r = k)) = r0 :: grpRest →
      (collapseFirst kc rows).filter
        (fun r' => decide (keyOf kc r' = k)) =
        [groupRow kc r0 (r0 :: grpRest)] := by
  intro n
  induction n with
  | zero =>
    intro rows h k r0 grpRest hfil
    cases rows with
    | nil => simp at hfil
    | cons a b => simp at h
  | succ n ih =>
    intro rows h k r0 grpRest hfil
    cases rows with
    | nil => simp at hfil
    | cons r rest =>
      have hlen : rest.length ≤ n := by
        simp only [List.length_cons] at h
        omega
      rw [collapseFirst_cons]
      by_cases hk : keyOf kc r = k
      · have hfil' : r :: rest.filter
            (fun r2 => decide (keyOf kc r2 = k)) = r0 :: grpRest := by
          rw [← hfil, List.filter_cons]
          simp [hk]
        injection hfil' with h1 h2
        subst h1
        subst h2
        rw [hk]
        show (groupRow kc r (r :: rest.filter
              (fun r2 => decide (keyOf kc r2 = k)))
            :: collapseFirst kc (rest.filter
              (fun r2 => decide (keyOf kc r2 ≠ k)))).filter
            (fun r' => decide (keyOf kc r' = k)) =
          [groupRow kc r (r :: rest.filter
            (fun r2 => decide (keyOf kc r2 = k)))]
        rw [List.filter_cons]
        have hhead : decide (keyOf kc (groupRow kc r (r :: rest.filter
            (fun r2 => decide (keyOf kc r2 = k)))) = k) = true := by
          simp [keyOf_groupRow, hk]
        rw [hhead]
        simp only [if_true]
        have hnil : (collapseFirst kc (rest.filter
            (fun r2 => decide (keyOf kc r2 ≠ k)))).filter
            (fun r' => decide (keyOf kc r' = k)) = [] := by
          rw [List.filter_eq_nil_iff]
          intro a ha
          obtain ⟨r2, hmem, hkey⟩ := collapseFirst_keys kc _ _ le_rfl a ha
          have hne : keyOf kc r2 ≠ k := by
            simpa using (List.mem_filter.mp hmem).2
          simp [hkey, hne]
        rw [hnil]
      · have hfil2 : rest.filter
            (fun r2 => decide (keyOf kc r2 = k)) = r0 :: grpRest := by
          rw [← hfil, List.filter_cons]
          simp [hk]
        show (groupRow kc r (r :: rest.filter
              (fun r2 => decide (keyOf kc r2 = keyOf kc r)))
            :: collapseFirst kc (rest.filter
              (fun r2 => decide (keyOf kc r2 ≠ keyOf kc r)))).filter
            (fun r' => decide (keyOf kc r' = k)) =
          [groupRow kc r0 (r0 :: grpRest)]
        rw [List.filter_cons]
        have hhead : decide (keyOf kc (groupRow kc r (r :: rest.filter
            (fun r2 => decide (keyOf kc r2 = keyOf kc r)))) = k) = false := by
          simp [keyOf_groupRow, hk]
        rw [hhead]
        simp only [Bool.false_eq_true, if_false]
        have hff : (rest.filter
            (fun r2 => decide (keyOf kc r2 ≠ keyOf kc r))).filter
            (fun r2 => decide (keyOf kc r2 = k)) = r0 :: grpRest := by
          rw [List.filter_filter, ← hfil2]
          apply List.filter_congr
          intro a ha
          by_cases hak : keyOf kc a = k
          · have hane : keyOf kc a ≠ keyOf kc r := by
              intro hc
              exact hk (hc ▸ hak)
            simp [hak, hane]
            intro hc
            exact hk hc.symm
          · simp [hak]
        have hlen2 : (rest.filter
            (fun r2 => decide (keyOf kc r2 ≠ keyOf kc r))).length ≤ n := by
          have := List.length_filter_le
            (fun r2 => decide (keyOf kc r2 ≠ keyOf kc r)) rest
          omega
        exact ih _ hlen2 k r0 grpRest hff

/-- C8: the Table Builder's grouping/deduplication step is idempotent —
applying the group-by-key collapse (including the `sort=True` ordering of
groups and the `reset_index` column layout) to its own output returns
exactly the same table: same columns, same rows, same values, same order. -/
theorem C8_dedup_idempotent (df : DF) : dedupDF (dedupDF df) = dedupDF df := by
  have h1 : (dedupDF df).cols = keyColsOf df.cols ++ aggColsList := rfl
  have h2 : (dedupDF df).rows =
      List.insertionSort (rowRel (keyColsOf df.cols))
        (collapseFirst (keyColsOf df.cols) df.rows) := rfl
  have hkc2 : keyColsOf (dedupDF df).cols = keyColsOf df.cols := by
    rw [h1]
    exact keyColsOf_out df.cols
  have hperm : List.Perm
      (List.insertionSort (rowRel (keyColsOf df.cols))
        (collapseFirst (keyColsOf df.cols) df.rows))
      (collapseFirst (keyColsOf df.cols) df.rows) :=
    List.perm_insertionSort _ _
  have hpw : List.Pairwise (fun a b =>
      keyOf (keyColsOf df.cols) a ≠ keyOf (keyColsOf df.cols) b)
      (List.insertionSort (rowRel (keyColsOf df.cols))
        (collapseFirst (keyColsOf df.cols) df.rows)) :=
    (List.Perm.pairwise_iff (fun h hc => h hc.symm) hperm).mpr
      (collapseFirst_pairwise (keyColsOf df.cols) _ df.rows le_rfl)
  have hshape : ∀ r' ∈ List.insertionSort (rowRel (keyColsOf df.cols))
      (collapseFirst (keyColsOf df.cols) df.rows),
      ∃ r0 grp, r' = groupRow (keyColsOf df.cols) r0 grp := by
    intro r' hr'
    exact collapseFirst_shape (keyColsOf df.cols) _ df.rows le_rfl r'
      (hperm.mem_iff.mp hr')
  have hcoll : collapseFirst (keyColsOf df.cols)
      (List.insertionSort (rowRel (keyColsOf df.cols))
        (collapseFirst (keyColsOf df.cols) df.rows)) =
      List.insertionSort (rowRel (keyColsOf df.cols))
        (collapseFirst (keyColsOf df.cols) df.rows) :=
    collapseFirst_distinct_id (keyColsOf df.cols)
      (keyColsOf_not_agg df.cols) _ _ le_rfl hpw hshape
  have hsort2 : List.insertionSort (rowRel (keyColsOf df.cols))
      (List.insertionSort (rowRel (keyColsOf df.cols))
        (collapseFirst (keyColsOf df.cols) df.rows)) =
      List.insertionSort (rowRel (keyColsOf df.cols))
        (collapseFirst (keyColsOf df.cols) df.rows) :=
    List.Sorted.insertionSort_eq
      (List.sorted_insertionSort (rowRel (keyColsOf df.cols)) _)
  have hL : dedupDF (dedupDF df) =
      DF.mk (keyColsOf (dedupDF df).cols ++ aggColsList)
        (List.insertionSort (rowRel (keyColsOf (dedupDF df).cols))
          (collapseFirst (keyColsOf (dedupDF df).cols) (dedupDF df).rows)) :=
    rfl
  rw [hL, hkc2, h2, hcoll, hsort2]
  exact rfl

/-- C7 (amended): the deduplication step groups rows by the `Chave` columns
among the first three columns (for depth ≤ 9 these are the level-1..3 key
columns, or as many as exist below depth three). Each group collapses to
exactly one row whose key cells come from the group's first-occurring row
and whose value, for each of the eight `agg` columns (example, type, unit,
meaning, required-flag, observations, min bound, max bound), is the
first-occurring row's value. In particular, two records sharing their
first three key-path segments but differing in example or type yield one
row carrying the first-encountered example and type. Unlike the original
claim, non-key columns OUTSIDE the `agg` dictionary — the level-4-and-
deeper key columns — are dropped from the output and carry no value at all
(see `C7_counterexample`); the output columns are exactly the group keys
followed by the `agg` columns. -/
theorem C7_dedup_group_first (df : DF) (r0 : Row) (hr0 : r0 ∈ df.rows)
    (hnn : ∀ r ∈ df.rows, ∀ c ∈ aggColsList,
      lookupCell r c ≠ none ∧ lookupCell r c ≠ some JVal.jnull) :
    (dedupDF df).cols = keyColsOf df.cols ++ aggColsList ∧
    ∃ r1 grpRest,
      df.rows.filter (fun r => decide (keyOf (keyColsOf df.cols) r =
        keyOf (keyColsOf df.cols) r0)) = r1 :: grpRest ∧
      (dedupDF df).rows.filter (fun r' => decide (keyOf (keyColsOf df.cols)
        r' = keyOf (keyColsOf df.cols) r0)) =
        [groupRow (keyColsOf df.cols) r1 (r1 :: grpRest)] ∧
      ∀ c ∈ aggColsList,
        lookupCell (groupRow (keyColsOf df.cols) r1 (r1 :: grpRest)) c =
          lookupCell r1 c := by
  refine ⟨rfl, ?_⟩
  have hmem : r0 ∈ df.rows.filter (fun r => decide (keyOf (keyColsOf df.cols)
      r = keyOf (keyColsOf df.cols) r0)) :=
    List.mem_filter.mpr ⟨hr0, by simp⟩
  cases hfil : df.rows.filter (fun r => decide (keyOf (keyColsOf df.cols) r =
      keyOf (keyColsOf df.cols) r0)) with
  | nil => rw [hfil] at hmem; simp at hmem
  | cons r1 grpRest =>
    refine ⟨r1, grpRest, rfl, ?_, ?_⟩
    · have hcoll := collapseFirst_filter_key (keyColsOf df.cols) _ df.rows
        le_rfl (keyOf (keyColsOf df.cols) r0) r1 grpRest hfil
      have hperm : List.Perm
          ((dedupDF df).rows.filter (fun r' =>
            decide (keyOf (keyColsOf df.cols) r' =
              keyOf (keyColsOf df.cols) r0)))
          ((collapseFirst (keyColsOf df.cols) df.rows).filter (fun r' =>
            decide (keyOf (keyColsOf df.cols) r' =
              keyOf (keyColsOf df.cols) r0))) :=
        List.Perm.filter _ (List.perm_insertionSort _ _)
      rw [hcoll] at hperm
      exact List.perm_singleton.mp hperm
    · intro c hc
      have hr1 : r1 ∈ df.rows := by
        have : r1 ∈ df.rows.filter (fun r =>
            decide (keyOf (keyColsOf df.cols) r =
              keyOf (keyColsOf df.cols) r0)) := by
          rw [hfil]
          exact List.mem_cons_self r1 grpRest
        exact List.mem_of_mem_filter this
      have hnc : c ∉ keyColsOf df.cols :=
        fun hck => (keyColsOf_not_agg df.cols c hck) hc
      rw [lookupCell_groupRow_agg (keyColsOf df.cols) r1 (r1 :: grpRest)
        c hc hnc]
      obtain ⟨hnone, hnull⟩ := hnn r1 hr1 c hc
      cases hlv : lookupCell r1 c with
      | none => exact absurd hlv hnone
      | some v =>
        have hvnn : v ≠ JVal.jnull := by
          intro hv
          rw [hv] at hlv
          exact hnull hlv
        rw [firstAgg_cons_some c r1 grpRest v hlv hvnn]

/-- The section table the pipeline builds (before deduplication) for two
depth-4 records sharing their first three key-path segments. -/
def c7df : DF :=
  fillnaDF (renameDF (reorderDF (addDocCols (mkDF
    ([("a.b.c.d", "int", JVal.jint 1),
      ("a.b.c.e", "str", JVal.jstr "s")].map rowOfRecord)))))

/-- C7 counterexample: in the depth-4 table `c7df`, `Chave quaternária` is
a non-key column whose first-occurring value is `'d'`, yet the collapsed
table has a single row carrying no value at all for that column — the
`agg` dictionary drops every column that is neither a group key nor one of
its eight entries, so the collapsed row does not carry the first-occurring
row's value for every non-key column. -/
theorem C7_counterexample :
    "Chave quaternária" ∈ c7df.cols ∧
    "Chave quaternária" ∉ keyColsOf c7df.cols ∧
    (c7df.rows.head?.map (fun r => lookupCell r "Chave quaternária")) =
      some (some (.jstr "d")) ∧
    (dedupDF c7df).rows.length = 1 ∧
    ∀ r' ∈ (dedupDF c7df).rows,
      lookupCell r' "Chave quaternária" = none := by
  refine ⟨by decide, by decide, by decide, by decide, by decide⟩

/-- The section table built for two records sharing the same three-segment
key-path with different example values and types (scenario 4). -/
def c7wdf : DF :=
  fillnaDF (renameDF (reorderDF (addDocCols (mkDF
    ([("a.b.c", "int", JVal.jint 1),
      ("a.b.c", "str", JVal.jstr "s")].map rowOfRecord)))))

/-- The first row of `c7wdf`. -/
def c7r0 : Row :=
  [("Chave primária", .jstr "a"), ("Chave secundária", .jstr "b"),
   ("Chave terciária", .jstr "c"), ("Exemplo", .jint 1),
   ("Tipo", .jstr "int"), ("Unidade", .jstr "---"),
   ("Significado", .jstr "---"), ("Obrigatório", .jstr "SIM"),
   ("Observações", .jstr "---"), ("Limite Mínimo", .jstr "---"),
   ("Limite Máximo", .jstr "---")]

theorem C7_witness :
    (c7r0 ∈ c7wdf.rows ∧
      ∀ r ∈ c7wdf.rows, ∀ c ∈ aggColsList,
        lookupCell r c ≠ none ∧ lookupCell r c ≠ some JVal.jnull) ∧
    ((dedupDF c7wdf).cols = keyColsOf c7wdf.cols ++ aggColsList ∧
      ∃ r1 grpRest,
        c7wdf.rows.filter (fun r => decide (keyOf (keyColsOf c7wdf.cols) r =
          keyOf (keyColsOf c7wdf.cols) c7r0)) = r1 :: grpRest ∧
        (dedupDF c7wdf).rows.filter (fun r' =>
          decide (keyOf (keyColsOf c7wdf.cols) r' =
            keyOf (keyColsOf c7wdf.cols) c7r0)) =
          [groupRow (keyColsOf c7wdf.cols) r1 (r1 :: grpRest)] ∧
        ∀ c ∈ aggColsList,
          lookupCell (groupRow (keyColsOf c7wdf.cols) r1 (r1 :: grpRest)) c =
            lookupCell r1 c) :=
  ⟨⟨by decide, by decide⟩,
    C7_dedup_group_first c7wdf c7r0 (by decide) (by decide)⟩
